import Mathlib

/-!
Verification of the datavisyn scatterplot core against its specification.

The development shallowly embeds the quadtree utilities (quadtree.ts),
the render traversal (Scatterplot.renderTree / visitTree), the selection
manager (setSelection / clearSelection / addToSelection /
removeFromSelection), the axis rescale dispatch and the lasso tester.
JavaScript numbers are modelled as rationals; data points are an opaque
type T, with JavaScript reference identity modelled as decidable equality
on T. The d3 quadtree is modelled as the inductive tree that d3 documents:
internal nodes with four (possibly missing) quadrant children, leaf nodes
holding a chain of coincident points. `tree.visit` pre-order traversal with
quadrant bounds subdivision is inlined into each traversal function,
mirroring the d3 visit contract (children visited in index order 0,1,2,3
with midpoint-split bounds, a truthy callback result pruning the subtree).
-/

/-- d3 quadtree node: a missing child slot (`empty`, never visited by
`visit`), a leaf with its chain of coincident points (`data` plus the
`next` chain), or an internal node with four quadrant child slots. -/
inductive QNode (T : Type) where
  | empty : QNode T
  | leaf (d : T) (rest : List T) : QNode T
  | inner (c0 c1 c2 c3 : QNode T) : QNode T

/-- All data items in a subtree, in the order the source's `forEach`
(quadtree.ts) enumerates them: leaf chain order, children 0,1,2,3. -/
def QNode.points {T : Type} : QNode T → List T
  | .empty => []
  | .leaf d rest => d :: rest
  | .inner c0 c1 c2 c3 => c0.points ++ c1.points ++ c2.points ++ c3.points

/-- `getFirstLeaf` (quadtree.ts): data of the first leaf, children searched
in index order; `reduce((f, act) => f || !act ? f : getFirstLeaf(act), null)`. -/
def QNode.getFirstLeaf {T : Type} : QNode T → Option T
  | .empty => none
  | .leaf d _ => some d
  | .inner c0 c1 c2 c3 =>
    match c0.getFirstLeaf with
    | some d => some d
    | none =>
      match c1.getFirstLeaf with
      | some d => some d
      | none =>
        match c2.getFirstLeaf with
        | some d => some d
        | none => c3.getFirstLeaf

/-- A d3 quadtree: root node, root bounds (as maintained by d3 cover) and
the two coordinate accessors `tree.x()`, `tree.y()`. -/
structure Quadtree (T : Type) where
  xacc : T → ℚ
  yacc : T → ℚ
  x0 : ℚ
  y0 : ℚ
  x1 : ℚ
  y1 : ℚ
  root : QNode T

/-- `tree.data()`: all points of the index. -/
def Quadtree.points {T : Type} (t : Quadtree T) : List T := t.root.points

/-- `getTreeSize` / `tree.size()`: number of points. -/
def Quadtree.size {T : Type} (t : Quadtree T) : Nat := t.points.length

/-- Well-formedness of a built d3 quadtree (spec section 3: every point in
a subtree lies within that subtree's bounding box; d3 maintains oriented
bounds and splits them at the midpoint for the quadrant children). -/
def QNode.wfIn {T : Type} (xacc yacc : T → ℚ) : QNode T → ℚ → ℚ → ℚ → ℚ → Bool
  | .empty, _, _, _, _ => true
  | .leaf d rest, x0, y0, x1, y1 =>
    decide (x0 ≤ x1) && decide (y0 ≤ y1) &&
    (d :: rest).all (fun p =>
      decide (x0 ≤ xacc p) && decide (xacc p ≤ x1) &&
      decide (y0 ≤ yacc p) && decide (yacc p ≤ y1))
  | .inner c0 c1 c2 c3, x0, y0, x1, y1 =>
    decide (x0 ≤ x1) && decide (y0 ≤ y1) &&
    c0.wfIn xacc yacc x0 y0 ((x0 + x1) / 2) ((y0 + y1) / 2) &&
    c1.wfIn xacc yacc ((x0 + x1) / 2) y0 x1 ((y0 + y1) / 2) &&
    c2.wfIn xacc yacc x0 ((y0 + y1) / 2) ((x0 + x1) / 2) y1 &&
    c3.wfIn xacc yacc ((x0 + x1) / 2) ((y0 + y1) / 2) x1 y1

/-- A quadtree is well formed when its root is, on the root bounds. -/
def Quadtree.wf {T : Type} (t : Quadtree T) : Bool :=
  t.root.wfIn t.xacc t.yacc t.x0 t.y0 t.x1 t.y1

/-- Properness of a d3 quadtree: internal nodes are never empty (d3 add
only creates internal nodes around existing leaves and remove collapses
childless internals, so a built index satisfies this). -/
def QNode.proper {T : Type} : QNode T → Bool
  | .empty => true
  | .leaf _ _ => true
  | .inner c0 c1 c2 c3 =>
    !(QNode.inner c0 c1 c2 c3).points.isEmpty &&
    c0.proper && c1.proper && c2.proper && c3.proper

/-- `hasOverlap(ox0, oy0, ox1, oy1)` (quadtree.ts): bounding-box overlap
predicate, curried exactly as in the source. -/
def hasOverlap (ox0 oy0 ox1 oy1 : ℚ) : ℚ → ℚ → ℚ → ℚ → Bool :=
  fun x0 y0 x1 y1 =>
    if x1 < ox0 ∨ y1 < oy0 ∨ x0 > ox1 ∨ y0 > oy1 then false else true

/-- `ITester` (quadtree.ts): point test plus area (bounds) test. -/
structure ITester where
  test : ℚ → ℚ → Bool
  testArea : ℚ → ℚ → ℚ → ℚ → Bool

/-- The body of `findByTester` (quadtree.ts): the `findItems` visit
callback, inlined with the d3 `visit` recursion. At each visited node the
four bounding-box corners are tested; if all are inside, the whole subtree
is pushed (`forEach`) and traversal of it aborted; otherwise, if
`testArea` reports overlap, leaves are tested point by point and internal
nodes are recursed with midpoint-split quadrant bounds; otherwise the
subtree is pruned. Missing children are not visited (they contribute
nothing). -/
def findItems {T : Type} (xacc yacc : T → ℚ) (tester : ITester) :
    QNode T → ℚ → ℚ → ℚ → ℚ → List T
  | .empty, _, _, _, _ => []
  | .leaf d rest, x0, y0, x1, y1 =>
    if tester.test x0 y0 && tester.test x0 y1 && tester.test x1 y0 && tester.test x1 y1 then
      (QNode.leaf d rest).points
    else if tester.testArea x0 y0 x1 y1 then
      (d :: rest).filter (fun p => tester.test (xacc p) (yacc p))
    else []
  | .inner c0 c1 c2 c3, x0, y0, x1, y1 =>
    if tester.test x0 y0 && tester.test x0 y1 && tester.test x1 y0 && tester.test x1 y1 then
      (QNode.inner c0 c1 c2 c3).points
    else if tester.testArea x0 y0 x1 y1 then
      findItems xacc yacc tester c0 x0 y0 ((x0 + x1) / 2) ((y0 + y1) / 2) ++
      findItems xacc yacc tester c1 ((x0 + x1) / 2) y0 x1 ((y0 + y1) / 2) ++
      findItems xacc yacc tester c2 x0 ((y0 + y1) / 2) ((x0 + x1) / 2) y1 ++
      findItems xacc yacc tester c3 ((x0 + x1) / 2) ((y0 + y1) / 2) x1 y1
    else []

/-- `findByTester(tree, tester)` (quadtree.ts): run the visit from the
root with the root bounds and collect the matching items. -/
def findByTester {T : Type} (t : Quadtree T) (tester : ITester) : List T :=
  findItems t.xacc t.yacc tester t.root t.x0 t.y0 t.x1 t.y1

/-- Observable outcome of one `renderTree` traversal (Scatterplot.ts):
the points passed to `renderer.render` in call order, the three debug
counters, and the number of `renderer.done()` calls. -/
structure RenderStats (T : Type) where
  calls : List T
  rendered : Nat
  aggregated : Nat
  hidden : Nat
  doneCalls : Nat
deriving Repr, DecidableEq

/-- `useAggregation(x0,y0,x1,y1)` (Scatterplot.ts render): project the
node bounds through the transformed normalized-to-pixel scales and
aggregate when the larger of the two extents is below 5 pixels. -/
def useAggregation (n2pX n2pY : ℚ → ℚ) (x0 y0 x1 y1 : ℚ) : Bool :=
  decide (max |n2pX x0 - n2pX x1| |n2pY y0 - n2pY y1| < 5)

/-- The `visitTree` callback of `renderTree` (Scatterplot.ts), inlined
with the d3 `visit` recursion: an invisible node is pruned (counting its
size as hidden when debugging); an aggregated node renders only its first
leaf and is pruned (counting size - 1 as aggregated when debugging); a
visible leaf renders its whole chain; a visible internal node recurses. -/
def visitRender {T : Type} (xacc yacc : T → ℚ)
    (isNodeVisible useAgg : ℚ → ℚ → ℚ → ℚ → Bool) (debug : Bool) :
    QNode T → ℚ → ℚ → ℚ → ℚ → RenderStats T
  | .empty, _, _, _, _ => ⟨[], 0, 0, 0, 0⟩
  | .leaf d rest, x0, y0, x1, y1 =>
    if !isNodeVisible x0 y0 x1 y1 then
      ⟨[], 0, 0, if debug then (QNode.leaf d rest).points.length else 0, 0⟩
    else if useAgg x0 y0 x1 y1 then
      ⟨(QNode.leaf d rest).getFirstLeaf.toList, 1,
        if debug then (QNode.leaf d rest).points.length - 1 else 0, 0, 0⟩
    else
      ⟨d :: rest, (d :: rest).length, 0, 0, 0⟩
  | .inner c0 c1 c2 c3, x0, y0, x1, y1 =>
    if !isNodeVisible x0 y0 x1 y1 then
      ⟨[], 0, 0, if debug then (QNode.inner c0 c1 c2 c3).points.length else 0, 0⟩
    else if useAgg x0 y0 x1 y1 then
      ⟨(QNode.inner c0 c1 c2 c3).getFirstLeaf.toList, 1,
        if debug then (QNode.inner c0 c1 c2 c3).points.length - 1 else 0, 0, 0⟩
    else
      let r0 := visitRender xacc yacc isNodeVisible useAgg debug c0
        x0 y0 ((x0 + x1) / 2) ((y0 + y1) / 2)
      let r1 := visitRender xacc yacc isNodeVisible useAgg debug c1
        ((x0 + x1) / 2) y0 x1 ((y0 + y1) / 2)
      let r2 := visitRender xacc yacc isNodeVisible useAgg debug c2
        x0 ((y0 + y1) / 2) ((x0 + x1) / 2) y1
      let r3 := visitRender xacc yacc isNodeVisible useAgg debug c3
        ((x0 + x1) / 2) ((y0 + y1) / 2) x1 y1
      ⟨r0.calls ++ r1.calls ++ r2.calls ++ r3.calls,
        r0.rendered + r1.rendered + r2.rendered + r3.rendered,
        r0.aggregated + r1.aggregated + r2.aggregated + r3.aggregated,
        r0.hidden + r1.hidden + r2.hidden + r3.hidden,
        r0.doneCalls + r1.doneCalls + r2.doneCalls + r3.doneCalls⟩

/-- `renderTree` (Scatterplot.ts): `tree.visit(visitTree)` followed by a
single `renderer.done()` call. -/
def renderTree {T : Type} (t : Quadtree T)
    (isNodeVisible useAgg : ℚ → ℚ → ℚ → ℚ → Bool) (debug : Bool) : RenderStats T :=
  let v := visitRender t.xacc t.yacc isNodeVisible useAgg debug t.root t.x0 t.y0 t.x1 t.y1
  { v with doneCalls := v.doneCalls + 1 }

/-- The selection index: a quadtree over the selected points, modelled by
its coordinate accessors and its data (in insertion order; `add` appends,
`removeAll` removes one occurrence per given item). -/
structure SelTree (T : Type) where
  xacc : T → ℚ
  yacc : T → ℚ
  data : List T

/-- The scatterplot state the selection manager touches: the data index,
the selection index and whether selection is enabled
(`isSelectAble()`). -/
structure PlotState (T : Type) where
  tree : Quadtree T
  selectionTree : SelTree T
  selectAble : Bool

/-- Observable outcome of one selection-manager call: the new state, the
returned boolean, the number of `selectionTree.add` calls, the number of
items passed to `selectionTree.removeAll` (or removed by the clear
rebuild), the number of `onSelectionChanged` notifications and the number
of `render(SELECTION_CHANGED)` requests. -/
structure SelOutcome (T : Type) where
  state : PlotState T
  changed : Bool
  adds : Nat
  removes : Nat
  notifs : Nat
  renders : Nat

/-- An outcome that did nothing and returned false. -/
def noChange {T : Type} (st : PlotState T) : SelOutcome T :=
  { state := st, changed := false, adds := 0, removes := 0, notifs := 0, renders := 0 }

/-- `clearSelection()` (Scatterplot.ts): if the selection index is
non-empty, rebuild it empty with the data index accessors, notify and
request a redraw; otherwise do nothing. Returns whether it changed. -/
def clearSelection {T : Type} (st : PlotState T) : SelOutcome T :=
  if st.selectionTree.data.length > 0 then
    { state := { st with selectionTree := ⟨st.tree.xacc, st.tree.yacc, []⟩ },
      changed := true, adds := 0, removes := st.selectionTree.data.length,
      notifs := 1, renders := 1 }
  else noChange st

/-- One iteration of the `selection.forEach` diff loop of `setSelection`
(Scatterplot.ts): accumulator is (remaining unmatched old selection s,
selection-tree data, changed flag, add count). `indexOf` finds the first
occurrence by reference identity; `splice` removes it. -/
def selStep {T : Type} [DecidableEq T] (acc : List T × List T × Bool × Nat) (sNew : T) :
    List T × List T × Bool × Nat :=
  match acc with
  | (s, tdata, changed, adds) =>
    if sNew ∈ s then (s.erase sNew, tdata, changed, adds)
    else (s, tdata ++ [sNew], true, adds + 1)

/-- `setSelection(selection)` (Scatterplot.ts): no-op when selection is
disabled; a null argument is replaced by the empty array; an empty array
degrades to `clearSelection`; otherwise the symmetric-difference loop
adds the new members, the leftover old members are removed via
`removeAll` (one `erase` per item, as d3 remove does), and notification
plus redraw fire only when something changed. -/
def setSelection {T : Type} [DecidableEq T] (st : PlotState T)
    (selection : Option (List T)) : SelOutcome T :=
  if !st.selectAble then noChange st
  else
    let sel := selection.getD []
    if sel.length = 0 then clearSelection st
    else
      match sel.foldl selStep (st.selectionTree.data, st.selectionTree.data, false, 0) with
      | (s, tdata, changed0, adds) =>
        let changed := changed0 || decide (s.length > 0)
        let tdata2 := s.foldl List.erase tdata
        { state := { st with selectionTree := { st.selectionTree with data := tdata2 } },
          changed := changed, adds := adds, removes := s.length,
          notifs := if changed then 1 else 0,
          renders := if changed then 1 else 0 }

/-- `addToSelection(items)` (Scatterplot.ts): `addAll`, then notify and
redraw unconditionally unless the argument is empty or selection is
disabled. -/
def addToSelection {T : Type} (st : PlotState T) (items : List T) : SelOutcome T :=
  if items.length = 0 || !st.selectAble then noChange st
  else
    { state := { st with selectionTree :=
        { st.selectionTree with data := st.selectionTree.data ++ items } },
      changed := true, adds := items.length, removes := 0, notifs := 1, renders := 1 }

/-- `removeFromSelection(items)` (Scatterplot.ts): `removeAll`, then
notify and redraw unconditionally unless the argument is empty or
selection is disabled. -/
def removeFromSelection {T : Type} [DecidableEq T] (st : PlotState T) (items : List T) :
    SelOutcome T :=
  if items.length = 0 || !st.selectAble then noChange st
  else
    { state := { st with selectionTree :=
        { st.selectionTree with data := items.foldl List.erase st.selectionTree.data } },
      changed := true, adds := 0, removes := items.length, notifs := 1, renders := 1 }

/-- The lasso path state (lasso.ts): the committed points. -/
structure LassoState where
  points : List (ℚ × ℚ)

/-- d3 `extent` lower bound over a non-empty list (junk 0 on empty, which
only arises for an empty hull). -/
def extentLo : List ℚ → ℚ
  | [] => 0
  | a :: rest => rest.foldl min a

/-- d3 `extent` upper bound over a non-empty list. -/
def extentHi : List ℚ → ℚ
  | [] => 0
  | a :: rest => rest.foldl max a

/-- `Lasso.tester(p2nX, p2nY, shiftX, shiftY)` (lasso.ts): null for fewer
than 3 committed points; otherwise the convex hull of the shifted points
mapped to normalized space, with `polygonContains` as point test and
`hasOverlap` of the hull extent as area test. The external d3-polygon
hull and containment routines are abstract parameters. -/
def lassoTester (hullFn : List (ℚ × ℚ) → List (ℚ × ℚ))
    (containsFn : List (ℚ × ℚ) → ℚ × ℚ → Bool)
    (lasso : LassoState) (p2nX p2nY : ℚ → ℚ) (shiftX shiftY : ℚ) : Option ITester :=
  if lasso.points.length < 3 then none
  else
    let polygon := hullFn (lasso.points.map (fun q => (p2nX (q.1 + shiftX), p2nY (q.2 + shiftY))))
    some { test := fun x y => containsFn polygon (x, y),
           testArea := hasOverlap (extentLo (polygon.map Prod.fst))
             (extentLo (polygon.map Prod.snd))
             (extentHi (polygon.map Prod.fst))
             (extentHi (polygon.map Prod.snd)) }

/-- `retestLasso()` (Scatterplot.ts): build the lasso tester with the
inverted transformed normalized-to-pixel scales; a null tester
short-circuits (falsy result, no selection mutation), otherwise
`selectWithTester` runs `findByTester` on the data index and feeds the
result to `setSelection`. -/
def retestLasso {T : Type} [DecidableEq T]
    (hullFn : List (ℚ × ℚ) → List (ℚ × ℚ))
    (containsFn : List (ℚ × ℚ) → ℚ × ℚ → Bool)
    (st : PlotState T) (lasso : LassoState) (p2nX p2nY : ℚ → ℚ) :
    Option Bool × SelOutcome T :=
  match lassoTester hullFn containsFn lasso p2nX p2nY 0 0 with
  | none => (none, noChange st)
  | some tester =>
    let out := setSelection st (some (findByTester st.tree tester))
    (some out.changed, out)

/-- `EScaleAxes` (Scatterplot.ts). -/
inductive EScaleAxes where
  | x | y | xy
deriving DecidableEq, Repr

/-- `rescale(axis, scale)` (Scatterplot.ts / AScatterplot.ts): dispatch on
the axis; apply the current transform's per-axis rescaling when the
configured zoomable-axes policy includes that axis, otherwise return the
scale unchanged; fall through to `throw new Error('Not Implemented')` for
any other axis value. The per-axis rescalings of the current transform
(`currentTransform.rescaleX/rescaleY`) are abstract parameters over an
abstract scale type. -/
def rescale {S : Type} (rescaleX rescaleY : S → S) (policy : EScaleAxes)
    (axis : EScaleAxes) (scale : S) : Except String S :=
  match axis with
  | .x => .ok (if policy = .x ∨ policy = .xy then rescaleX scale else scale)
  | .y => .ok (if policy = .y ∨ policy = .xy then rescaleY scale else scale)
  | .xy => .error "Not Implemented"

/-- A small concrete data index over ℕ points with coordinate accessors
mapping a point to its own value on both axes, used to instantiate the
general theorems. -/
def egTree : Quadtree ℕ :=
  ⟨fun n => (n : ℚ), fun n => (n : ℚ), 0, 0, 100, 100,
    QNode.inner (QNode.leaf 10 []) QNode.empty QNode.empty (QNode.leaf 80 [])⟩

/-- A concrete plot state with an empty selection. -/
def egState : PlotState ℕ :=
  ⟨egTree, ⟨fun n => (n : ℚ), fun n => (n : ℚ), []⟩, true⟩

/-- A concrete plot state with selection [5]. -/
def egStateSel : PlotState ℕ :=
  ⟨egTree, ⟨fun n => (n : ℚ), fun n => (n : ℚ), [5]⟩, true⟩

/-- A concrete plot state with selection [1, 2]. -/
def egStateAB : PlotState ℕ :=
  ⟨egTree, ⟨fun n => (n : ℚ), fun n => (n : ℚ), [1, 2]⟩, true⟩

/-- The rectangle-window point test used to instantiate the convex-tester
theorem: inside the axis-aligned window [lx, hx] times [ly, hy]. -/
def rectTest (lx ly hx hy : ℚ) : ℚ → ℚ → Bool := fun x y =>
  decide (lx ≤ x ∧ x ≤ hx ∧ ly ≤ y ∧ y ≤ hy)

/-- A window-rectangle tester: rectangle point test with the rectangle
itself as the bounding box of the accepted region. -/
def rectTester (lx ly hx hy : ℚ) : ITester :=
  ⟨rectTest lx ly hx hy, hasOverlap lx ly hx hy⟩

theorem QNode.getFirstLeaf_eq_head {T : Type} (n : QNode T) :
    n.getFirstLeaf = n.points.head? := by
  induction n with
  | empty => rfl
  | leaf d rest => rfl
  | inner c0 c1 c2 c3 ih0 ih1 ih2 ih3 =>
    simp only [QNode.getFirstLeaf, QNode.points, ih0, ih1, ih2, ih3]
    cases c0.points <;> cases c1.points <;> cases c2.points <;> cases c3.points <;> simp

/-- C7: rescale(axis, scale) — for axis x (resp. y) the result is the
transform's per-axis rescaling when the zoomable-axes policy includes
that axis and the unchanged scale otherwise (never an error for a valid
axis), while the remaining axis value (xy) falls through to the fatal
'Not Implemented' error. -/
theorem rescale_spec {S : Type} (rescaleX rescaleY : S → S) (policy : EScaleAxes) (scale : S) :
    rescale rescaleX rescaleY policy EScaleAxes.x scale =
      Except.ok (if policy = EScaleAxes.x ∨ policy = EScaleAxes.xy then rescaleX scale else scale) ∧
    rescale rescaleX rescaleY policy EScaleAxes.y scale =
      Except.ok (if policy = EScaleAxes.y ∨ policy = EScaleAxes.xy then rescaleY scale else scale) ∧
    rescale rescaleX rescaleY policy EScaleAxes.xy scale = Except.error "Not Implemented" := by
  exact ⟨rfl, rfl, rfl⟩

/-- C6 counterexample: removeFromSelection on a state with an empty
selection, called with one (unselected) point, returns true, leaves the
selection unchanged and still fires one notification and one redraw —
refuting the claim that the returned boolean is true only if the call
actually changed the selection state and that notifications fire only on
change. -/
theorem removeFromSelection_unselected_reports_change :
    (removeFromSelection egState [1]).changed = true ∧
    (removeFromSelection egState [1]).state.selectionTree.data =
      egState.selectionTree.data ∧
    (removeFromSelection egState [1]).notifs = 1 ∧
    (removeFromSelection egState [1]).renders = 1 := by
  exact ⟨rfl, rfl, rfl, rfl⟩

/-- C6 amended: addToSelection and removeFromSelection return true
exactly when the argument is non-empty and selection is enabled, and
they emit one change notification and one SELECTION_CHANGED redraw
exactly when they return true — regardless of whether the selection
state actually changed. -/
theorem addRemoveSelection_amended {T : Type} [DecidableEq T] (st : PlotState T)
    (items : List T) :
    ((addToSelection st items).changed = (!(items.length = 0) && st.selectAble)) ∧
    ((removeFromSelection st items).changed = (!(items.length = 0) && st.selectAble)) ∧
    ((addToSelection st items).notifs = if (addToSelection st items).changed then 1 else 0) ∧
    ((removeFromSelection st items).notifs =
      if (removeFromSelection st items).changed then 1 else 0) ∧
    (addToSelection st items).renders = (addToSelection st items).notifs ∧
    (removeFromSelection st items).renders = (removeFromSelection st items).notifs := by
  unfold addToSelection removeFromSelection noChange
  rcases st with ⟨tree, selT, sa⟩
  cases sa <;> cases items <;> simp

/-- C5: setSelection with an empty array (or null) is the same call as
clearSelection; clearSelection on an already-empty selection is an
idempotent no-op (returns false, no mutation, no notification, no
redraw), and on a non-empty selection rebuilds the selection index empty
with the data index accessors, notifying once and returning true. -/
theorem setSelection_empty_clears {T : Type} [DecidableEq T] (st : PlotState T)
    (hsa : st.selectAble = true) :
    setSelection st (some []) = clearSelection st ∧
    setSelection st none = clearSelection st ∧
    (st.selectionTree.data = [] → clearSelection st = noChange st) ∧
    (st.selectionTree.data ≠ [] →
      (clearSelection st).changed = true ∧
      (clearSelection st).state.selectionTree.data = [] ∧
      (clearSelection st).state.selectionTree.xacc = st.tree.xacc ∧
      (clearSelection st).state.selectionTree.yacc = st.tree.yacc ∧
      (clearSelection st).notifs = 1 ∧
      (clearSelection st).renders = 1) := by
  refine ⟨?_, ?_, ?_, ?_⟩
  · unfold setSelection
    simp [hsa]
  · unfold setSelection
    simp [hsa]
  · intro h
    unfold clearSelection
    simp [h]
  · intro h
    unfold clearSelection
    have hl : st.selectionTree.data.length > 0 := List.length_pos.mpr h
    simp [hl]

/-- C5 witness: on the concrete state with selection [5] the clear call
reports a change, and on its result a second clear is a no-op. -/
theorem setSelection_empty_clears_witness :
    egStateSel.selectAble = true ∧ egStateSel.selectionTree.data ≠ [] ∧
    (clearSelection egStateSel).changed = true ∧
    setSelection egStateSel (some []) = clearSelection egStateSel :=
  ⟨rfl, by decide, ((setSelection_empty_clears egStateSel rfl).2.2.2 (by decide)).1,
    (setSelection_empty_clears egStateSel rfl).1⟩

/-- C9: the selection-mutating operations (setSelection, clearSelection,
addToSelection, removeFromSelection) leave the data index — structure and
accessors — untouched, and so does the full lasso re-test pipeline
(findByTester on the data index feeding setSelection). The read-side
walks findByTester and renderTree are embedded as pure functions of the
index (their results carry no tree), mirroring that the source never
assigns into the tree it walks. -/
theorem selection_ops_preserve_data_index {T : Type} [DecidableEq T] (st : PlotState T)
    (sel : Option (List T)) (items rems : List T)
    (hullFn : List (ℚ × ℚ) → List (ℚ × ℚ)) (containsFn : List (ℚ × ℚ) → ℚ × ℚ → Bool)
    (lasso : LassoState) (p2nX p2nY : ℚ → ℚ) :
    (setSelection st sel).state.tree = st.tree ∧
    (clearSelection st).state.tree = st.tree ∧
    (addToSelection st items).state.tree = st.tree ∧
    (removeFromSelection st rems).state.tree = st.tree ∧
    (retestLasso hullFn containsFn st lasso p2nX p2nY).2.state.tree = st.tree := by
  have hclear : (clearSelection st).state.tree = st.tree := by
    unfold clearSelection noChange
    split <;> rfl
  have hset : ∀ o : Option (List T), (setSelection st o).state.tree = st.tree := by
    intro o
    unfold setSelection noChange
    split
    · rfl
    · dsimp only
      split
      · exact hclear
      · split <;> rfl
  refine ⟨hset sel, hclear, ?_, ?_, ?_⟩
  · unfold addToSelection noChange
    split <;> rfl
  · unfold removeFromSelection noChange
    split <;> rfl
  · unfold retestLasso
    split
    · rfl
    · exact hset _

/-- C10: setSelection treats its argument as a multiset of references:
with exactly one copy of a selected, setSelection [a, a] inserts one
extra duplicate (one add call), reports a change, and leaves the
selection holding both copies. -/
theorem setSelection_duplicate_insert {T : Type} [DecidableEq T] (tr : Quadtree T)
    (xa ya : T → ℚ) (a : T) :
    (setSelection (⟨tr, ⟨xa, ya, [a]⟩, true⟩ : PlotState T) (some [a, a])).changed = true ∧
    (setSelection (⟨tr, ⟨xa, ya, [a]⟩, true⟩ : PlotState T)
      (some [a, a])).state.selectionTree.data = [a, a] ∧
    (setSelection (⟨tr, ⟨xa, ya, [a]⟩, true⟩ : PlotState T) (some [a, a])).adds = 1 ∧
    (setSelection (⟨tr, ⟨xa, ya, [a]⟩, true⟩ : PlotState T) (some [a, a])).removes = 0 := by
  unfold setSelection selStep
  simp

theorem visitRender_spec {T : Type} (xacc yacc : T → ℚ) (vis agg : ℚ → ℚ → ℚ → ℚ → Bool) :
    ∀ n : QNode T, n.proper = true → ∀ x0 y0 x1 y1 : ℚ,
      (visitRender xacc yacc vis agg true n x0 y0 x1 y1).calls.Sublist n.points ∧
      (visitRender xacc yacc vis agg true n x0 y0 x1 y1).rendered +
        (visitRender xacc yacc vis agg true n x0 y0 x1 y1).aggregated +
        (visitRender xacc yacc vis agg true n x0 y0 x1 y1).hidden = n.points.length ∧
      (visitRender xacc yacc vis agg true n x0 y0 x1 y1).rendered =
        (visitRender xacc yacc vis agg true n x0 y0 x1 y1).calls.length ∧
      (visitRender xacc yacc vis agg true n x0 y0 x1 y1).doneCalls = 0 := by
  intro n
  induction n with
  | empty =>
    intro _ x0 y0 x1 y1
    exact ⟨List.Sublist.refl _, rfl, rfl, rfl⟩
  | leaf d rest =>
    intro _ x0 y0 x1 y1
    unfold visitRender
    split
    · simp [QNode.points]
    · split
      · refine ⟨?_, ?_, ?_, ?_⟩ <;>
          simp [QNode.points, QNode.getFirstLeaf, List.cons_sublist_cons, List.nil_sublist] <;>
          omega
      · simp [QNode.points]
  | inner c0 c1 c2 c3 ih0 ih1 ih2 ih3 =>
    intro hp x0 y0 x1 y1
    have hps : ¬(QNode.inner c0 c1 c2 c3).points.isEmpty = true ∧
        c0.proper = true ∧ c1.proper = true ∧ c2.proper = true ∧ c3.proper = true := by
      have hp2 := hp
      unfold QNode.proper at hp2
      simp only [Bool.and_eq_true, Bool.not_eq_true'] at hp2
      exact ⟨by simp [hp2.1.1.1.1], hp2.1.1.1.2, hp2.1.1.2, hp2.1.2, hp2.2⟩
    unfold visitRender
    split
    · simp [QNode.points]
    · split
      · obtain ⟨p, ps, hpts⟩ : ∃ p ps, (QNode.inner c0 c1 c2 c3).points = p :: ps := by
          rcases h : (QNode.inner c0 c1 c2 c3).points with _ | ⟨p, ps⟩
          · rw [h] at hps
            simp at hps
          · exact ⟨p, ps, rfl⟩
        have hfl : (QNode.inner c0 c1 c2 c3).getFirstLeaf = some p := by
          rw [QNode.getFirstLeaf_eq_head, hpts]
          rfl
        refine ⟨?_, ?_, ?_, ?_⟩ <;>
          simp [hfl, hpts, List.cons_sublist_cons, List.nil_sublist] <;>
          omega
      · obtain ⟨s0, e0, r0, d0⟩ := ih0 hps.2.1 x0 y0 ((x0 + x1) / 2) ((y0 + y1) / 2)
        obtain ⟨s1, e1, r1, d1⟩ := ih1 hps.2.2.1 ((x0 + x1) / 2) y0 x1 ((y0 + y1) / 2)
        obtain ⟨s2, e2, r2, d2⟩ := ih2 hps.2.2.2.1 x0 ((y0 + y1) / 2) ((x0 + x1) / 2) y1
        obtain ⟨s3, e3, r3, d3⟩ := ih3 hps.2.2.2.2 ((x0 + x1) / 2) ((y0 + y1) / 2) x1 y1
        dsimp only [QNode.points]
        refine ⟨((s0.append s1).append s2).append s3, ?_, ?_, ?_⟩
        · simp only [List.length_append]
          omega
        · simp only [List.length_append]
          omega
        · omega

/-- C2: in one render traversal every point is rendered at most once (the
render-call sequence is a subsequence of the index points, hence without
duplicates when the points are distinct), renderer.done() runs exactly
once, and with debug counting the rendered, aggregated and hidden
counters partition the index: rendered + aggregated + hidden equals the
total index size (each point being rendered individually, represented by
its subtree's single aggregate representative, or hidden). -/
theorem renderTree_partition {T : Type} (t : Quadtree T)
    (vis agg : ℚ → ℚ → ℚ → ℚ → Bool)
    (hp : t.root.proper = true) (hnd : t.points.Nodup) :
    (renderTree t vis agg true).calls.Sublist t.points ∧
    (renderTree t vis agg true).calls.Nodup ∧
    (renderTree t vis agg true).doneCalls = 1 ∧
    (renderTree t vis agg true).rendered + (renderTree t vis agg true).aggregated +
      (renderTree t vis agg true).hidden = t.size ∧
    (renderTree t vis agg true).rendered = (renderTree t vis agg true).calls.length := by
  obtain ⟨hsub, hsum, hlen, hdone⟩ :=
    visitRender_spec t.xacc t.yacc vis agg t.root hp t.x0 t.y0 t.x1 t.y1
  have hsz : t.size = t.root.points.length := rfl
  have hrt : renderTree t vis agg true =
      ⟨(visitRender t.xacc t.yacc vis agg true t.root t.x0 t.y0 t.x1 t.y1).calls,
        (visitRender t.xacc t.yacc vis agg true t.root t.x0 t.y0 t.x1 t.y1).rendered,
        (visitRender t.xacc t.yacc vis agg true t.root t.x0 t.y0 t.x1 t.y1).aggregated,
        (visitRender t.xacc t.yacc vis agg true t.root t.x0 t.y0 t.x1 t.y1).hidden,
        (visitRender t.xacc t.yacc vis agg true t.root t.x0 t.y0 t.x1 t.y1).doneCalls + 1⟩ := rfl
  rw [hrt]
  dsimp only
  rw [hsz]
  exact ⟨hsub, hnd.sublist hsub, by omega, by omega, hlen⟩

/-- C2 witness: the partition holds on the concrete two-point index with
everything visible and no aggregation. -/
theorem renderTree_partition_witness :
    egTree.root.proper = true ∧ egTree.points.Nodup ∧
    (renderTree egTree (fun _ _ _ _ => true) (fun _ _ _ _ => false) true).doneCalls = 1 ∧
    (renderTree egTree (fun _ _ _ _ => true) (fun _ _ _ _ => false) true).rendered +
      (renderTree egTree (fun _ _ _ _ => true) (fun _ _ _ _ => false) true).aggregated +
      (renderTree egTree (fun _ _ _ _ => true) (fun _ _ _ _ => false) true).hidden =
      egTree.size :=
  ⟨by decide, by decide,
    (renderTree_partition egTree _ _ (by decide) (by decide)).2.2.1,
    (renderTree_partition egTree _ _ (by decide) (by decide)).2.2.2.1⟩

/-- C3: useAggregation is true exactly when both the width and the height
of the node bounds projected through the transformed normalized-to-pixel
scales are below the 5-pixel threshold; and on a visible node for which
it is true, the traversal renders exactly one representative — the first
leaf under the deterministic child-order walk, which is the head of the
subtree's point enumeration — and prunes the rest of the subtree. -/
theorem useAggregation_spec {T : Type} (n2pX n2pY : ℚ → ℚ) (x0 y0 x1 y1 : ℚ)
    (vis : ℚ → ℚ → ℚ → ℚ → Bool) (xacc yacc : T → ℚ) (debug : Bool) (n : QNode T) :
    (useAggregation n2pX n2pY x0 y0 x1 y1 = true ↔
      |n2pX x0 - n2pX x1| < 5 ∧ |n2pY y0 - n2pY y1| < 5) ∧
    (vis x0 y0 x1 y1 = true → useAggregation n2pX n2pY x0 y0 x1 y1 = true →
      n.points ≠ [] →
      ∃ d, n.getFirstLeaf = some d ∧ n.points.head? = some d ∧
        (visitRender xacc yacc vis (useAggregation n2pX n2pY) debug n x0 y0 x1 y1).calls
          = [d] ∧
        (visitRender xacc yacc vis (useAggregation n2pX n2pY) debug n x0 y0 x1 y1).rendered
          = 1) := by
  constructor
  · unfold useAggregation
    rw [decide_eq_true_iff]
    exact max_lt_iff
  · intro hvis hagg hne
    obtain ⟨p, ps, hpts⟩ : ∃ p ps, n.points = p :: ps := by
      rcases h : n.points with _ | ⟨p, ps⟩
      · exact absurd h hne
      · exact ⟨p, ps, rfl⟩
    have hfl : n.getFirstLeaf = some p := by
      rw [QNode.getFirstLeaf_eq_head, hpts]
      rfl
    refine ⟨p, hfl, by rw [QNode.getFirstLeaf_eq_head] at hfl; exact hfl, ?_, ?_⟩ <;>
      (cases n with
        | empty => simp [QNode.points] at hpts
        | leaf d rest =>
          unfold visitRender
          simp [hvis, hagg, hfl]
        | inner c0 c1 c2 c3 =>
          unfold visitRender
          simp [hvis, hagg, hfl])

/-- C3 witness: identity pixel scales on a unit box trigger aggregation
and the single-leaf chain renders exactly its first datum. -/
theorem useAggregation_spec_witness :
    (fun _ _ _ _ => true : ℚ → ℚ → ℚ → ℚ → Bool) 0 0 1 1 = true ∧
    useAggregation id id 0 0 1 1 = true ∧
    (QNode.leaf (7 : ℕ) [9]).points ≠ [] ∧
    (∃ d, (QNode.leaf (7 : ℕ) [9]).getFirstLeaf = some d ∧
      (QNode.leaf (7 : ℕ) [9]).points.head? = some d ∧
      (visitRender (fun _ => (0 : ℚ)) (fun _ => (0 : ℚ)) (fun _ _ _ _ => true)
        (useAggregation id id) false (QNode.leaf 7 [9]) 0 0 1 1).calls = [d] ∧
      (visitRender (fun _ => (0 : ℚ)) (fun _ => (0 : ℚ)) (fun _ _ _ _ => true)
        (useAggregation id id) false (QNode.leaf 7 [9]) 0 0 1 1).rendered = 1) :=
  ⟨rfl, by simp [useAggregation], by decide,
    (useAggregation_spec id id 0 0 1 1 (fun _ _ _ _ => true) (fun _ => (0 : ℚ))
      (fun _ => (0 : ℚ)) false (QNode.leaf 7 [9])).2 rfl (by simp [useAggregation])
      (by decide)⟩

theorem selLoop_spec {T : Type} [DecidableEq T] :
    ∀ (L s tdata : List T) (c : Bool) (a : Nat), L.Nodup → s.Nodup →
      (List.foldl selStep (s, tdata, c, a) L).1 =
        s.filter (fun y => decide (y ∉ L)) ∧
      (List.foldl selStep (s, tdata, c, a) L).2.1 =
        tdata ++ L.filter (fun y => decide (y ∉ s)) ∧
      (List.foldl selStep (s, tdata, c, a) L).2.2.1 =
        (c || L.any (fun y => decide (y ∉ s))) ∧
      (List.foldl selStep (s, tdata, c, a) L).2.2.2 =
        a + (L.filter (fun y => decide (y ∉ s))).length := by
  intro L
  induction L with
  | nil =>
    intro s tdata c a _ _
    simp
  | cons x xs ih =>
    intro s tdata c a hL hs
    have hxxs : x ∉ xs := (List.nodup_cons.mp hL).1
    have hxs : xs.Nodup := (List.nodup_cons.mp hL).2
    by_cases hx : x ∈ s
    · have hstep : selStep (s, tdata, c, a) x = (s.erase x, tdata, c, a) := by
        simp [selStep, hx]
      rw [List.foldl_cons, hstep]
      obtain ⟨h1, h2, h3, h4⟩ := ih (s.erase x) tdata c a hxs (hs.erase x)
      have hpoint : ∀ y ∈ xs, (decide (y ∉ s.erase x) : Bool) = decide (y ∉ s) := by
        intro y hy
        have hyx : y ≠ x := fun he => hxxs (he ▸ hy)
        rw [Bool.eq_iff_iff]
        simp [hs.mem_erase_iff, hyx]
      refine ⟨?_, ?_, ?_, ?_⟩
      · rw [h1, hs.erase_eq_filter x, List.filter_filter]
        refine List.filter_congr ?_
        intro y hy
        rw [Bool.eq_iff_iff]
        simp [List.mem_cons, not_or, and_comm]
      · rw [h2, List.filter_cons]
        have hxf : (decide (x ∉ s) : Bool) = false := by simp [hx]
        rw [hxf]
        simp only [Bool.false_eq_true, if_false]
        rw [List.filter_congr hpoint]
      · rw [h3, List.any_cons]
        have hxf : (decide (x ∉ s) : Bool) = false := by simp [hx]
        rw [hxf]
        simp only [Bool.false_or]
        congr 1
        rw [Bool.eq_iff_iff]
        simp only [List.any_eq_true]
        constructor
        · rintro ⟨y, hy, hp⟩
          exact ⟨y, hy, by rw [hpoint y hy] at hp; exact hp⟩
        · rintro ⟨y, hy, hp⟩
          exact ⟨y, hy, by rw [hpoint y hy]; exact hp⟩
      · rw [h4, List.filter_cons]
        have hxf : (decide (x ∉ s) : Bool) = false := by simp [hx]
        rw [hxf]
        simp only [Bool.false_eq_true, if_false]
        rw [List.filter_congr hpoint]
    · have hstep : selStep (s, tdata, c, a) x = (s, tdata ++ [x], true, a + 1) := by
        simp [selStep, hx]
      rw [List.foldl_cons, hstep]
      obtain ⟨h1, h2, h3, h4⟩ := ih s (tdata ++ [x]) true (a + 1) hxs hs
      have hpoint : ∀ y ∈ s, (decide (y ∉ xs) : Bool) = decide (y ∉ x :: xs) := by
        intro y hy
        have hyx : y ≠ x := fun he => hx (he ▸ hy)
        rw [Bool.eq_iff_iff]
        simp [List.mem_cons, hyx]
      refine ⟨?_, ?_, ?_, ?_⟩
      · rw [h1, List.filter_congr hpoint]
      · rw [h2, List.filter_cons]
        have hxt : (decide (x ∉ s) : Bool) = true := by simp [hx]
        rw [hxt]
        simp
      · rw [h3, List.any_cons]
        have hxt : (decide (x ∉ s) : Bool) = true := by simp [hx]
        rw [hxt]
        simp
      · rw [h4, List.filter_cons]
        have hxt : (decide (x ∉ s) : Bool) = true := by simp [hx]
        rw [hxt]
        simp only [List.length_cons, if_true]
        omega

theorem diff_append_self {T : Type} [DecidableEq T] :
    ∀ (B X : List T), (B ++ X).diff B = X := by
  intro B
  induction B with
  | nil => intro X; simp
  | cons b B ih =>
    intro X
    rw [List.cons_append, List.diff_cons, List.erase_cons_head]
    exact ih X

theorem perm_of_nodup_mem_iff {T : Type} [DecidableEq T] {l1 l2 : List T}
    (h1 : l1.Nodup) (h2 : l2.Nodup) (h : ∀ a, a ∈ l1 ↔ a ∈ l2) : List.Perm l1 l2 := by
  rw [List.perm_iff_count]
  intro a
  by_cases ha : a ∈ l1
  · rw [List.count_eq_one_of_mem h1 ha, List.count_eq_one_of_mem h2 ((h a).mp ha)]
  · rw [List.count_eq_zero.mpr ha, List.count_eq_zero.mpr (fun hm => ha ((h a).mpr hm))]

/-- C4: with a duplicate-free current selection S and a non-empty
duplicate-free request sel, setSelection performs a minimal
symmetric-difference update by identity membership: the add calls are
exactly the members of sel not in S, the removed items are exactly the
members of S not in sel, the resulting selection is (a permutation of)
sel, the returned boolean is true exactly when the symmetric difference
is non-empty, and exactly one notification and one redraw fire when it
returns true and none otherwise. -/
theorem setSelection_diff {T : Type} [DecidableEq T] (st : PlotState T) (sel : List T)
    (hsa : st.selectAble = true) (hS : st.selectionTree.data.Nodup)
    (hsel : sel.Nodup) (hne : sel ≠ []) :
    (setSelection st (some sel)).adds =
      (sel.filter (fun y => decide (y ∉ st.selectionTree.data))).length ∧
    (setSelection st (some sel)).removes =
      (st.selectionTree.data.filter (fun y => decide (y ∉ sel))).length ∧
    List.Perm (setSelection st (some sel)).state.selectionTree.data sel ∧
    ((setSelection st (some sel)).changed = true ↔
      (∃ a ∈ sel, a ∉ st.selectionTree.data) ∨ (∃ a ∈ st.selectionTree.data, a ∉ sel)) ∧
    (setSelection st (some sel)).notifs =
      (if (setSelection st (some sel)).changed = true then 1 else 0) ∧
    (setSelection st (some sel)).renders = (setSelection st (some sel)).notifs := by
  obtain ⟨h1, h2, h3, h4⟩ :=
    selLoop_spec sel st.selectionTree.data st.selectionTree.data false 0 hsel hS
  have hlen0 : ¬ sel.length = 0 := by
    simpa using hne
  unfold setSelection
  rw [hsa]
  simp only [Bool.not_true, Bool.false_eq_true, if_false, Option.getD_some]
  rw [if_neg hlen0]
  dsimp only
  simp only [h1, h2, h3, h4]
  have hfoldl : List.foldl List.erase
      (st.selectionTree.data ++ sel.filter (fun y => decide (y ∉ st.selectionTree.data)))
      (st.selectionTree.data.filter (fun y => decide (y ∉ sel))) =
      (st.selectionTree.data ++
        sel.filter (fun y => decide (y ∉ st.selectionTree.data))).diff
        (st.selectionTree.data.filter (fun y => decide (y ∉ sel))) :=
    (List.diff_eq_foldl _ _).symm
  refine ⟨by omega, by trivial, ?_, ?_, by trivial, by trivial⟩
  · rw [hfoldl]
    have hB : st.selectionTree.data.filter (fun y => decide (y ∉ sel)) =
        st.selectionTree.data.filter (fun y => !decide (y ∈ sel)) :=
      List.filter_congr (fun y _ => decide_not)
    have perm0 : List.Perm
        (st.selectionTree.data.filter (fun y => decide (y ∈ sel)) ++
          st.selectionTree.data.filter (fun y => decide (y ∉ sel)))
        st.selectionTree.data := by
      rw [hB]
      exact st.selectionTree.data.filter_append_perm _
    have perm1 : List.Perm
        (st.selectionTree.data ++ sel.filter (fun y => decide (y ∉ st.selectionTree.data)))
        ((st.selectionTree.data.filter (fun y => decide (y ∈ sel)) ++
          st.selectionTree.data.filter (fun y => decide (y ∉ sel))) ++
          sel.filter (fun y => decide (y ∉ st.selectionTree.data))) :=
      perm0.symm.append_right _
    have perm2 : List.Perm
        ((st.selectionTree.data.filter (fun y => decide (y ∈ sel)) ++
          st.selectionTree.data.filter (fun y => decide (y ∉ sel))) ++
          sel.filter (fun y => decide (y ∉ st.selectionTree.data)))
        (st.selectionTree.data.filter (fun y => decide (y ∉ sel)) ++
          (st.selectionTree.data.filter (fun y => decide (y ∈ sel)) ++
            sel.filter (fun y => decide (y ∉ st.selectionTree.data)))) := by
      have hcomm : List.Perm
          (st.selectionTree.data.filter (fun y => decide (y ∈ sel)) ++
            st.selectionTree.data.filter (fun y => decide (y ∉ sel)))
          (st.selectionTree.data.filter (fun y => decide (y ∉ sel)) ++
            st.selectionTree.data.filter (fun y => decide (y ∈ sel))) :=
        List.perm_append_comm
      refine (hcomm.append_right
        (sel.filter (fun y => decide (y ∉ st.selectionTree.data)))).trans ?_
      rw [List.append_assoc]
    have permD := ((perm1.trans perm2).diff_right
      (st.selectionTree.data.filter (fun y => decide (y ∉ sel))))
    rw [diff_append_self] at permD
    refine permD.trans ?_
    have hAA : List.Perm (st.selectionTree.data.filter (fun y => decide (y ∈ sel)))
        (sel.filter (fun y => decide (y ∈ st.selectionTree.data))) := by
      refine perm_of_nodup_mem_iff (hS.filter _) (hsel.filter _) ?_
      intro a
      simp only [List.mem_filter, decide_eq_true_iff]
      exact and_comm
    have hCC : sel.filter (fun y => decide (y ∉ st.selectionTree.data)) =
        sel.filter (fun y => !decide (y ∈ st.selectionTree.data)) :=
      List.filter_congr (fun y _ => decide_not)
    refine (hAA.append (List.Perm.refl _)).trans ?_
    rw [hCC]
    exact sel.filter_append_perm _
  · rw [Bool.false_or, Bool.or_eq_true, List.any_eq_true]
    simp only [decide_eq_true_iff, gt_iff_lt, List.length_pos, ne_eq]
    constructor
    · rintro (⟨a, ha, hnot⟩ | hfil)
      · exact Or.inl ⟨a, ha, hnot⟩
      · right
        obtain ⟨a, hmem⟩ := List.exists_mem_of_ne_nil _ hfil
        obtain ⟨haS, hdec⟩ := List.mem_filter.mp hmem
        exact ⟨a, haS, of_decide_eq_true hdec⟩
    · rintro (⟨a, ha, hnot⟩ | ⟨a, ha, hnot⟩)
      · exact Or.inl ⟨a, ha, hnot⟩
      · right
        intro hfil
        have hmem : a ∈ (List.filter (fun y => decide (y ∉ sel))
            st.selectionTree.data) := List.mem_filter.mpr ⟨ha, decide_eq_true hnot⟩
        rw [hfil] at hmem
        simp at hmem

/-- C4 witness (Scenario B): from selection [1, 2], setSelection [2, 3]
performs exactly one add and one remove, fires one notification, and
leaves selection {2, 3}. -/
theorem setSelection_diff_witness :
    egStateAB.selectAble = true ∧ egStateAB.selectionTree.data.Nodup ∧
    ([2, 3] : List ℕ).Nodup ∧ ([2, 3] : List ℕ) ≠ [] ∧
    (setSelection egStateAB (some [2, 3])).adds = 1 ∧
    (setSelection egStateAB (some [2, 3])).removes = 1 ∧
    List.Perm (setSelection egStateAB (some [2, 3])).state.selectionTree.data [2, 3] ∧
    (setSelection egStateAB (some [2, 3])).notifs = 1 := by
  obtain ⟨hadds, hrem, hperm, hiff, hnotif, _⟩ :=
    setSelection_diff egStateAB [2, 3] rfl (by decide) (by decide) (by decide)
  have hchanged : (setSelection egStateAB (some [2, 3])).changed = true :=
    hiff.mpr (Or.inl ⟨3, by decide, by decide⟩)
  refine ⟨rfl, by decide, by decide, by decide, ?_, ?_, hperm, ?_⟩
  · rw [hadds]
    decide
  · rw [hrem]
    decide
  · rw [hnotif, if_pos hchanged]

/-- A two-point lasso path. -/
def egLasso2 : LassoState := ⟨[(0, 0), (20, 0)]⟩

/-- A three-point lasso path. -/
def egLasso3 : LassoState := ⟨[(0, 0), (20, 0), (0, 20)]⟩

/-- C8: a lasso path with fewer than 3 committed points yields a null
tester rather than an error, and retestLasso consequently performs no
selection mutation and returns a falsy (null) result; any path of 3 or
more points yields the convex-hull polygon tester whose testArea is the
bounding-box overlap predicate of the hull's own extent. -/
theorem lassoTester_spec {T : Type} [DecidableEq T]
    (hullFn : List (ℚ × ℚ) → List (ℚ × ℚ)) (containsFn : List (ℚ × ℚ) → ℚ × ℚ → Bool)
    (st : PlotState T) (lasso : LassoState) (p2nX p2nY : ℚ → ℚ) (shiftX shiftY : ℚ)
    (hsmall : lasso.points.length < 3) :
    lassoTester hullFn containsFn lasso p2nX p2nY shiftX shiftY = none ∧
    retestLasso hullFn containsFn st lasso p2nX p2nY = (none, noChange st) ∧
    (∀ lasso2 : LassoState, 3 ≤ lasso2.points.length →
      lassoTester hullFn containsFn lasso2 p2nX p2nY shiftX shiftY =
        some { test := fun x y => containsFn
                 (hullFn (lasso2.points.map
                   (fun q => (p2nX (q.1 + shiftX), p2nY (q.2 + shiftY))))) (x, y),
               testArea := hasOverlap
                 (extentLo ((hullFn (lasso2.points.map
                   (fun q => (p2nX (q.1 + shiftX), p2nY (q.2 + shiftY))))).map Prod.fst))
                 (extentLo ((hullFn (lasso2.points.map
                   (fun q => (p2nX (q.1 + shiftX), p2nY (q.2 + shiftY))))).map Prod.snd))
                 (extentHi ((hullFn (lasso2.points.map
                   (fun q => (p2nX (q.1 + shiftX), p2nY (q.2 + shiftY))))).map Prod.fst))
                 (extentHi ((hullFn (lasso2.points.map
                   (fun q => (p2nX (q.1 + shiftX), p2nY (q.2 + shiftY))))).map Prod.snd)) }) := by
  have hnone0 : lassoTester hullFn containsFn lasso p2nX p2nY 0 0 = none := by
    unfold lassoTester
    rw [if_pos hsmall]
  refine ⟨?_, ?_, ?_⟩
  · unfold lassoTester
    rw [if_pos hsmall]
  · unfold retestLasso
    rw [hnone0]
  · intro lasso2 h3
    unfold lassoTester
    rw [if_neg (not_lt.mpr h3)]

/-- C8 witness: the two-point path yields no tester and an unchanged
state, and the three-point path yields a tester. -/
theorem lassoTester_spec_witness :
    egLasso2.points.length < 3 ∧
    lassoTester id (fun _ _ => true) egLasso2 id id 0 0 = none ∧
    retestLasso (T := ℕ) id (fun _ _ => true) egState egLasso2 id id =
      (none, noChange egState) ∧
    (lassoTester id (fun _ _ => true) egLasso3 id id 0 0).isSome = true := by
  obtain ⟨h1, h2, h3⟩ := lassoTester_spec (T := ℕ) id (fun _ _ => true) egState egLasso2
    id id 0 0 (by decide)
  refine ⟨by decide, h1, h2, ?_⟩
  rw [h3 egLasso3 (by decide)]
  rfl

theorem exists_interp {a b c : ℚ} (h1 : a ≤ c) (h2 : c ≤ b) :
    ∃ u : ℚ, 0 ≤ u ∧ u ≤ 1 ∧ (1 - u) * a + u * b = c := by
  rcases eq_or_lt_of_le (h1.trans h2) with heq | hlt
  · refine ⟨0, le_refl 0, by norm_num, ?_⟩
    have hac : a = c := le_antisymm h1 (h2.trans heq.ge)
    rw [← hac]
    ring
  · refine ⟨(c - a) / (b - a), ?_, ?_, ?_⟩
    · apply div_nonneg <;> linarith
    · rw [div_le_one (by linarith)]
      linarith
    · have hne : b - a ≠ 0 := ne_of_gt (by linarith)
      field_simp
      ring

theorem convex_box (test : ℚ → ℚ → Bool)
    (hconv : ∀ a b c d u : ℚ, 0 ≤ u → u ≤ 1 → test a b = true → test c d = true →
      test ((1 - u) * a + u * c) ((1 - u) * b + u * d) = true)
    {x0 y0 x1 y1 px py : ℚ}
    (h00 : test x0 y0 = true) (h01 : test x0 y1 = true)
    (h10 : test x1 y0 = true) (h11 : test x1 y1 = true)
    (hx0 : x0 ≤ px) (hx1 : px ≤ x1) (hy0 : y0 ≤ py) (hy1 : py ≤ y1) :
    test px py = true := by
  obtain ⟨u, hu0, hu1, hux⟩ := exists_interp hx0 hx1
  have hA := hconv x0 y0 x1 y0 u hu0 hu1 h00 h10
  have hB := hconv x0 y1 x1 y1 u hu0 hu1 h01 h11
  rw [show (1 - u) * y0 + u * y0 = y0 by ring] at hA
  rw [show (1 - u) * y1 + u * y1 = y1 by ring] at hB
  rw [hux] at hA hB
  obtain ⟨v, hv0, hv1, hvy⟩ := exists_interp hy0 hy1
  have hC := hconv px y0 px y1 v hv0 hv1 hA hB
  rw [show (1 - v) * px + v * px = px by ring, hvy] at hC
  exact hC

theorem wfIn_mem {T : Type} (xacc yacc : T → ℚ) :
    ∀ (n : QNode T) (x0 y0 x1 y1 : ℚ), n.wfIn xacc yacc x0 y0 x1 y1 = true →
      ∀ p ∈ n.points, x0 ≤ xacc p ∧ xacc p ≤ x1 ∧ y0 ≤ yacc p ∧ yacc p ≤ y1 := by
  intro n
  induction n with
  | empty =>
    intro x0 y0 x1 y1 _ p hp
    simp [QNode.points] at hp
  | leaf d rest =>
    intro x0 y0 x1 y1 hwf p hp
    unfold QNode.wfIn at hwf
    simp only [Bool.and_eq_true, List.all_eq_true, decide_eq_true_iff] at hwf
    obtain ⟨⟨⟨ha, hb⟩, hc⟩, hd⟩ := hwf.2 p hp
    exact ⟨ha, hb, hc, hd⟩
  | inner c0 c1 c2 c3 ih0 ih1 ih2 ih3 =>
    intro x0 y0 x1 y1 hwf p hp
    unfold QNode.wfIn at hwf
    simp only [Bool.and_eq_true, decide_eq_true_iff] at hwf
    obtain ⟨⟨⟨⟨⟨hx01, hy01⟩, hw0⟩, hw1⟩, hw2⟩, hw3⟩ := hwf
    simp only [QNode.points, List.mem_append] at hp
    rcases hp with ((hp0 | hp1) | hp2) | hp3
    · obtain ⟨ha, hb, hc, hd⟩ := ih0 _ _ _ _ hw0 p hp0
      exact ⟨by linarith, by linarith, by linarith, by linarith⟩
    · obtain ⟨ha, hb, hc, hd⟩ := ih1 _ _ _ _ hw1 p hp1
      exact ⟨by linarith, by linarith, by linarith, by linarith⟩
    · obtain ⟨ha, hb, hc, hd⟩ := ih2 _ _ _ _ hw2 p hp2
      exact ⟨by linarith, by linarith, by linarith, by linarith⟩
    · obtain ⟨ha, hb, hc, hd⟩ := ih3 _ _ _ _ hw3 p hp3
      exact ⟨by linarith, by linarith, by linarith, by linarith⟩

theorem test_false_of_prune (tester : ITester) (ox0 oy0 ox1 oy1 : ℚ)
    (hbound : ∀ x y, tester.test x y = true → ox0 ≤ x ∧ x ≤ ox1 ∧ oy0 ≤ y ∧ y ≤ oy1)
    (harea : tester.testArea = hasOverlap ox0 oy0 ox1 oy1)
    {x0 y0 x1 y1 : ℚ} (hno : tester.testArea x0 y0 x1 y1 = false)
    {qx qy : ℚ} (hx0 : x0 ≤ qx) (hx1 : qx ≤ x1) (hy0 : y0 ≤ qy) (hy1 : qy ≤ y1) :
    tester.test qx qy = false := by
  rw [harea] at hno
  unfold hasOverlap at hno
  have hcond : x1 < ox0 ∨ y1 < oy0 ∨ x0 > ox1 ∨ y0 > oy1 := by
    by_contra hc
    rw [if_neg hc] at hno
    simp at hno
  cases htest : tester.test qx qy with
  | false => rfl
  | true =>
    obtain ⟨hb1, hb2, hb3, hb4⟩ := hbound qx qy htest
    rcases hcond with h | h | h | h <;> linarith

theorem findItems_eq_filter {T : Type} (xacc yacc : T → ℚ) (tester : ITester)
    (hconv : ∀ a b c d u : ℚ, 0 ≤ u → u ≤ 1 → tester.test a b = true →
      tester.test c d = true →
      tester.test ((1 - u) * a + u * c) ((1 - u) * b + u * d) = true)
    (ox0 oy0 ox1 oy1 : ℚ)
    (hbound : ∀ x y, tester.test x y = true → ox0 ≤ x ∧ x ≤ ox1 ∧ oy0 ≤ y ∧ y ≤ oy1)
    (harea : tester.testArea = hasOverlap ox0 oy0 ox1 oy1) :
    ∀ (n : QNode T) (x0 y0 x1 y1 : ℚ), n.wfIn xacc yacc x0 y0 x1 y1 = true →
      findItems xacc yacc tester n x0 y0 x1 y1 =
        n.points.filter (fun p => tester.test (xacc p) (yacc p)) := by
  intro n
  induction n with
  | empty =>
    intro x0 y0 x1 y1 _
    rfl
  | leaf d rest =>
    intro x0 y0 x1 y1 hwf
    unfold findItems
    split
    · rename_i hcorners
      simp only [Bool.and_eq_true] at hcorners
      obtain ⟨⟨⟨h00, h01⟩, h10⟩, h11⟩ := hcorners
      refine (List.filter_eq_self.mpr ?_).symm
      intro p hp
      obtain ⟨ha, hb, hc, hd⟩ := wfIn_mem xacc yacc _ x0 y0 x1 y1 hwf p hp
      exact convex_box tester.test hconv h00 h01 h10 h11 ha hb hc hd
    · split
      · rfl
      · rename_i hno
        have hnof : tester.testArea x0 y0 x1 y1 = false := by
          revert hno
          cases tester.testArea x0 y0 x1 y1 <;> simp
        refine (List.filter_eq_nil_iff.mpr ?_).symm
        intro p hp
        obtain ⟨ha, hb, hc, hd⟩ := wfIn_mem xacc yacc _ x0 y0 x1 y1 hwf p hp
        rw [test_false_of_prune tester ox0 oy0 ox1 oy1 hbound harea hnof ha hb hc hd]
        simp
  | inner c0 c1 c2 c3 ih0 ih1 ih2 ih3 =>
    intro x0 y0 x1 y1 hwf
    have hwf2 := hwf
    unfold QNode.wfIn at hwf2
    simp only [Bool.and_eq_true] at hwf2
    obtain ⟨⟨⟨⟨⟨_, _⟩, hw0⟩, hw1⟩, hw2⟩, hw3⟩ := hwf2
    unfold findItems
    split
    · rename_i hcorners
      simp only [Bool.and_eq_true] at hcorners
      obtain ⟨⟨⟨h00, h01⟩, h10⟩, h11⟩ := hcorners
      refine (List.filter_eq_self.mpr ?_).symm
      intro p hp
      obtain ⟨ha, hb, hc, hd⟩ := wfIn_mem xacc yacc _ x0 y0 x1 y1 hwf p hp
      exact convex_box tester.test hconv h00 h01 h10 h11 ha hb hc hd
    · split
      · rw [ih0 _ _ _ _ hw0, ih1 _ _ _ _ hw1, ih2 _ _ _ _ hw2, ih3 _ _ _ _ hw3]
        simp [QNode.points, List.filter_append]
      · rename_i hno
        have hnof : tester.testArea x0 y0 x1 y1 = false := by
          revert hno
          cases tester.testArea x0 y0 x1 y1 <;> simp
        refine (List.filter_eq_nil_iff.mpr ?_).symm
        intro p hp
        obtain ⟨ha, hb, hc, hd⟩ := wfIn_mem xacc yacc _ x0 y0 x1 y1 hwf p hp
        rw [test_false_of_prune tester ox0 oy0 ox1 oy1 hbound harea hnof ha hb hc hd]
        simp

/-- C1: on a well-formed (built) index, for any tester whose accepted
region is convex (closed under convex combinations of accepted points)
and whose testArea is the bounding-box-overlap predicate of a box
containing that region, findByTester returns exactly the points whose
coordinates satisfy tester.test — the result is literally the filter of
the index points by the point test, so there are no false positives and
no false negatives, through the three-way corner / partial-overlap /
prune check. -/
theorem findByTester_convex_exact {T : Type} (t : Quadtree T) (tester : ITester)
    (hwf : t.wf = true)
    (hconv : ∀ a b c d u : ℚ, 0 ≤ u → u ≤ 1 → tester.test a b = true →
      tester.test c d = true →
      tester.test ((1 - u) * a + u * c) ((1 - u) * b + u * d) = true)
    (ox0 oy0 ox1 oy1 : ℚ)
    (hbound : ∀ x y, tester.test x y = true → ox0 ≤ x ∧ x ≤ ox1 ∧ oy0 ≤ y ∧ y ≤ oy1)
    (harea : tester.testArea = hasOverlap ox0 oy0 ox1 oy1) :
    findByTester t tester =
      t.points.filter (fun p => tester.test (t.xacc p) (t.yacc p)) :=
  findItems_eq_filter t.xacc t.yacc tester hconv ox0 oy0 ox1 oy1 hbound harea
    t.root t.x0 t.y0 t.x1 t.y1 hwf

theorem rectTest_convex (lx ly hx hy : ℚ) : ∀ a b c d u : ℚ, 0 ≤ u → u ≤ 1 →
    rectTest lx ly hx hy a b = true → rectTest lx ly hx hy c d = true →
    rectTest lx ly hx hy ((1 - u) * a + u * c) ((1 - u) * b + u * d) = true := by
  intro a b c d u hu0 hu1 hab hcd
  unfold rectTest at hab hcd ⊢
  rw [decide_eq_true_iff] at hab hcd ⊢
  obtain ⟨ha1, ha2, ha3, ha4⟩ := hab
  obtain ⟨hc1, hc2, hc3, hc4⟩ := hcd
  have h1u : (0 : ℚ) ≤ 1 - u := by linarith
  refine ⟨?_, ?_, ?_, ?_⟩ <;>
    nlinarith [mul_le_mul_of_nonneg_left ha1 h1u, mul_le_mul_of_nonneg_left ha2 h1u,
      mul_le_mul_of_nonneg_left ha3 h1u, mul_le_mul_of_nonneg_left ha4 h1u,
      mul_le_mul_of_nonneg_left hc1 hu0, mul_le_mul_of_nonneg_left hc2 hu0,
      mul_le_mul_of_nonneg_left hc3 hu0, mul_le_mul_of_nonneg_left hc4 hu0]

theorem rectTest_bound (lx ly hx hy : ℚ) : ∀ x y, rectTest lx ly hx hy x y = true →
    lx ≤ x ∧ x ≤ hx ∧ ly ≤ y ∧ y ≤ hy := by
  intro x y h
  unfold rectTest at h
  exact of_decide_eq_true h

/-- A concrete data index over ℚ points (a point is its own coordinate on
both axes), for evaluating the findByTester theorem. -/
def egTreeQ : Quadtree ℚ :=
  ⟨id, id, 0, 0, 100, 100,
    QNode.inner (QNode.leaf 10 []) QNode.empty QNode.empty (QNode.leaf 80 [])⟩

/-- C1 witness: the window-rectangle tester over [0,50] squared on the
concrete two-point index returns exactly the filtered point list, here
[10]. -/
theorem findByTester_convex_exact_witness :
    egTreeQ.wf = true ∧
    (rectTester 0 0 50 50).testArea = hasOverlap 0 0 50 50 ∧
    findByTester egTreeQ (rectTester 0 0 50 50) =
      egTreeQ.points.filter
        (fun p => (rectTester 0 0 50 50).test (egTreeQ.xacc p) (egTreeQ.yacc p)) ∧
    findByTester egTreeQ (rectTester 0 0 50 50) = [10] := by
  have hwfq : egTreeQ.wf = true := by
    simp [Quadtree.wf, egTreeQ, QNode.wfIn]
    norm_num
  have happ := findByTester_convex_exact egTreeQ (rectTester 0 0 50 50) hwfq
    (rectTest_convex 0 0 50 50) 0 0 50 50 (rectTest_bound 0 0 50 50) rfl
  refine ⟨hwfq, rfl, happ, ?_⟩
  rw [happ]
  simp [egTreeQ, Quadtree.points, QNode.points, rectTester, rectTest, List.filter]
  norm_num
